import Mathlib

/-!
Shallow embedding of the eth-balance exporter (src/main.py) and proofs about
its configuration loading, environment substitution, bearer-token auth
middleware and metric-update cycle.
-/

set_option maxRecDepth 4000

/-- Typed configuration entity. Mirrors `class Network(BaseModel)` in main.py:
`name : str`, `rpc_endpoint : str`. -/
structure Network where
  name : String
  rpc_endpoint : String
deriving DecidableEq, Repr

/-- Mirrors `class Address(BaseModel)`: `address : str`, `name : str`,
`network : str` (field declaration order as in the source). -/
structure Address where
  address : String
  name : String
  network : String
deriving DecidableEq, Repr

/-- Mirrors `class Config(BaseModel)`: `addresses : List[Address]`
(min_length 1), `networks : List[Network]` (min_length 1),
`update_interval_seconds : int` (ge 60), `static_bearer_token : str = None`
(optional, default None). -/
structure Config where
  addresses : List Address
  networks : List Network
  update_interval_seconds : Int
  static_bearer_token : Option String
deriving DecidableEq, Repr

/-- One pydantic validation error: the location of the offending field and a
message. Pydantic aggregates all such errors in one ValidationError. -/
structure FieldError where
  path : List String
  msg : String
deriving DecidableEq, Repr

/-- Generic tree produced by `yaml.safe_load`: maps, lists and scalars.
Map keys are plain Python dict keys (the substitution walk in main.py maps
over dict values only, `{k: search_replace(v) for k, v in obj.items()}`). -/
inductive Yaml where
  | str (s : String)
  | int (n : Int)
  | bool (b : Bool)
  | null
  | map (entries : List (String × Yaml))
  | list (items : List Yaml)

/-- Test from the `name_compatible_with_prometheus` validators:
`if " " in v or '"' in v or "{" in v or "}" in v: raise ValueError(...)`.
`labelSafe s = true` exactly when none of the four characters occurs in `s`. -/
def labelSafe (s : String) : Bool :=
  s.data.all (fun c => !(c = ' ' || c = '"' || c = '\x7b' || c = '\x7d'))

/-- Model of `Web3.is_address` restricted to non-mixed-case inputs: `0x`
followed by 40 lowercase hex digits. The real predicate additionally accepts
upper-case and EIP-55 checksummed mixed-case strings (the checksum needs
keccak-256, outside this embedding); every string accepted here is accepted
by `Web3.is_address`. `validateConfig` is parameterized over the address
predicate, so theorems quantified over it also hold for the real one; this
concrete version instantiates witnesses on inputs where the two agree. -/
def lowerHexAddress (s : String) : Bool :=
  match s.data with
  | '0' :: 'x' :: rest =>
    rest.length = 40 && rest.all (fun c => c.isDigit || ('a' ≤ c && c ≤ 'f'))
  | _ => false

/-- Decidable equality of validation outcomes, for concrete evaluation. -/
instance {ε α : Type} [DecidableEq ε] [DecidableEq α] : DecidableEq (Except ε α) :=
  fun x y =>
    match x, y with
    | .ok a, .ok b =>
      if h : a = b then .isTrue (by rw [h])
      else .isFalse (fun hh => h (Except.ok.inj hh))
    | .error a, .error b =>
      if h : a = b then .isTrue (by rw [h])
      else .isFalse (fun hh => h (Except.error.inj hh))
    | .ok _, .error _ => .isFalse (fun hh => Except.noConfusion hh)
    | .error _, .ok _ => .isFalse (fun hh => Except.noConfusion hh)

/-- Key lookup in a parsed YAML mapping. PyYAML builds a Python dict, where a
repeated key's later occurrence overwrites the earlier one, hence the last
match wins. -/
def lookupKey (kvs : List (String × Yaml)) (k : String) : Option Yaml :=
  match kvs with
  | [] => none
  | p :: rest =>
    match lookupKey rest k with
    | some v => some v
    | none => if p.1 = k then some p.2 else none

/-- Pydantic-style validation of a `name` field: required, must be a string,
and must pass the `name_compatible_with_prometheus` field validator. -/
def checkNameField (path : List String) (v : Option Yaml) :
    Except (List FieldError) String :=
  match v with
  | none => .error [⟨path, "Field required"⟩]
  | some (.str s) =>
    if labelSafe s then .ok s
    else .error [⟨path, "name must be Prometheus label compatible"⟩]
  | some _ => .error [⟨path, "Input should be a valid string"⟩]

/-- Validation of a plain string field (`rpc_endpoint`, `Address.network`):
required, must be a string, no further constraint in the source. -/
def checkStrField (path : List String) (v : Option Yaml) :
    Except (List FieldError) String :=
  match v with
  | none => .error [⟨path, "Field required"⟩]
  | some (.str s) => .ok s
  | some _ => .error [⟨path, "Input should be a valid string"⟩]

/-- Validation of the `address` field: required string passing the
`address_is_valid_ethereum` validator (`Web3.is_address`, abstracted as
`isAddr`). -/
def checkAddressField (isAddr : String → Bool) (path : List String)
    (v : Option Yaml) : Except (List FieldError) String :=
  match v with
  | none => .error [⟨path, "Field required"⟩]
  | some (.str s) =>
    if isAddr s then .ok s
    else .error [⟨path, "address must be a valid Ethereum address"⟩]
  | some _ => .error [⟨path, "Input should be a valid string"⟩]

/-- Pair two validation results, aggregating the error lists the way pydantic
aggregates per-field errors into one ValidationError. -/
def combine2 {α β : Type} (x : Except (List FieldError) α)
    (y : Except (List FieldError) β) : Except (List FieldError) (α × β) :=
  match x, y with
  | .ok a, .ok b => .ok (a, b)
  | .error e, .ok _ => .error e
  | .ok _, .error e => .error e
  | .error e, .error e2 => .error (e ++ e2)

/-- Cons an element validation result onto a list validation result,
aggregating errors from both. -/
def combineCons {α : Type} (x : Except (List FieldError) α)
    (y : Except (List FieldError) (List α)) :
    Except (List FieldError) (List α) :=
  match x, y with
  | .ok a, .ok as => .ok (a :: as)
  | .error e, .ok _ => .error e
  | .ok _, .error e => .error e
  | .error e, .error e2 => .error (e ++ e2)

/-- Validation of one element of the `networks` list at index `i`. -/
def validateNetworkAt (i : Nat) (v : Yaml) : Except (List FieldError) Network :=
  match v with
  | .map kvs =>
    match combine2
        (checkNameField ["networks", toString i, "name"] (lookupKey kvs "name"))
        (checkStrField ["networks", toString i, "rpc_endpoint"]
          (lookupKey kvs "rpc_endpoint")) with
    | .ok p => .ok ⟨p.1, p.2⟩
    | .error e => .error e
  | _ => .error [⟨["networks", toString i], "Input should be a valid dictionary"⟩]

/-- Validation of one element of the `addresses` list at index `i`; the field
order (address, name, network) matches the model declaration order. -/
def validateAddressAt (isAddr : String → Bool) (i : Nat) (v : Yaml) :
    Except (List FieldError) Address :=
  match v with
  | .map kvs =>
    match combine2
        (combine2
          (checkAddressField isAddr ["addresses", toString i, "address"]
            (lookupKey kvs "address"))
          (checkNameField ["addresses", toString i, "name"]
            (lookupKey kvs "name")))
        (checkStrField ["addresses", toString i, "network"]
          (lookupKey kvs "network")) with
    | .ok p => .ok ⟨p.1.1, p.1.2, p.2⟩
    | .error e => .error e
  | _ => .error [⟨["addresses", toString i], "Input should be a valid dictionary"⟩]

/-- Validate the items of the `networks` list, starting at index `i`. -/
def validateNetworksGo (i : Nat) (items : List Yaml) :
    Except (List FieldError) (List Network) :=
  match items with
  | [] => .ok []
  | v :: rest => combineCons (validateNetworkAt i v) (validateNetworksGo (i + 1) rest)

/-- Validate the items of the `addresses` list, starting at index `i`. -/
def validateAddressesGo (isAddr : String → Bool) (i : Nat) (items : List Yaml) :
    Except (List FieldError) (List Address) :=
  match items with
  | [] => .ok []
  | v :: rest =>
    combineCons (validateAddressAt isAddr i v)
      (validateAddressesGo isAddr (i + 1) rest)

/-- The `networks` field: required list with `min_length=1` of Network items. -/
def validateNetworksField (v : Option Yaml) :
    Except (List FieldError) (List Network) :=
  match v with
  | none => .error [⟨["networks"], "Field required"⟩]
  | some (.list items) =>
    if items.isEmpty then
      .error [⟨["networks"], "List should have at least 1 item after validation, not 0"⟩]
    else validateNetworksGo 0 items
  | some _ => .error [⟨["networks"], "Input should be a valid list"⟩]

/-- The `addresses` field: required list with `min_length=1` of Address items. -/
def validateAddressesField (isAddr : String → Bool) (v : Option Yaml) :
    Except (List FieldError) (List Address) :=
  match v with
  | none => .error [⟨["addresses"], "Field required"⟩]
  | some (.list items) =>
    if items.isEmpty then
      .error [⟨["addresses"], "List should have at least 1 item after validation, not 0"⟩]
    else validateAddressesGo isAddr 0 items
  | some _ => .error [⟨["addresses"], "Input should be a valid list"⟩]

/-- The `update_interval_seconds` field: required integer, `ge=60`.
(Pydantic lax-mode coercion of numeric strings is not modelled; the claims
only exercise integer scalars.) -/
def validateIntervalField (v : Option Yaml) : Except (List FieldError) Int :=
  match v with
  | none => .error [⟨["update_interval_seconds"], "Field required"⟩]
  | some (.int n) =>
    if 60 ≤ n then .ok n
    else .error [⟨["update_interval_seconds"],
      "Input should be greater than or equal to 60"⟩]
  | some _ => .error [⟨["update_interval_seconds"], "Input should be a valid integer"⟩]

/-- The `static_bearer_token` field: declared `str = None`, i.e. optional with
default `None`; when present it must be a string (any string, including ""). -/
def validateTokenField (v : Option Yaml) :
    Except (List FieldError) (Option String) :=
  match v with
  | none => .ok none
  | some (.str s) => .ok (some s)
  | some _ => .error [⟨["static_bearer_token"], "Input should be a valid string"⟩]

/-- Model of `Config.model_validate(config_data)`: the top level must be a
mapping; every field is validated and all field errors are aggregated.
There is no cross-field check (in particular nothing compares
`Address.network` against the declared `Network.name`s). -/
def validateConfig (isAddr : String → Bool) (v : Yaml) :
    Except (List FieldError) Config :=
  match v with
  | .map kvs =>
    match combine2
        (combine2 (validateAddressesField isAddr (lookupKey kvs "addresses"))
          (validateNetworksField (lookupKey kvs "networks")))
        (combine2 (validateIntervalField (lookupKey kvs "update_interval_seconds"))
          (validateTokenField (lookupKey kvs "static_bearer_token"))) with
    | .ok p => .ok ⟨p.1.1, p.1.2, p.2.1, p.2.2⟩
    | .error e => .error e
  | _ => .error [⟨[], "Input should be a valid dictionary"⟩]

/-- Word character of the regex `\w` in the pattern `\$\{(\w+)\}` (ASCII
range; the source's `re` module also admits non-ASCII word characters, which
no configuration in scope uses). -/
def isWordChar (c : Char) : Bool :=
  c.isAlphanum || c = '_'

/-- Leftmost-match attempt of the compiled pattern `\$\{(\w+)\}` at the head
of the character list: a literal `$`, a literal opening brace, a maximal
nonempty run of word characters, then a closing brace. Returns the captured
variable name. -/
def phName (cs : List Char) : Option (List Char) :=
  match cs with
  | c1 :: c2 :: rest =>
    if c1 = '$' ∧ c2 = '\x7b' then
      let name := rest.takeWhile isWordChar
      if name.isEmpty then none
      else if (rest.drop name.length).head? = some '\x7d' then some name
      else none
    else none
  | _ => none

/-- The `replace` callback of `substitute_env_variables`:
`os.getenv(env_var, f"${...}")` — the variable's value when set, otherwise
the placeholder text itself. -/
def applyEnvName (env : String → Option String) (name : List Char) : List Char :=
  match env (String.mk name) with
  | some v => v.data
  | none => '$' :: '\x7b' :: (name ++ [ '\x7d' ])

/-- Fuel-indexed scan of `pattern.sub(replace, obj)` over the characters of a
string scalar: at each position try the pattern; on a match emit the
replacement and resume after the match (the replacement text is not
rescanned, exactly as `re.sub`); otherwise emit the character and move one
position right. One unit of fuel is spent per position, so any fuel of at
least the list length is enough. -/
def substCharsF (env : String → Option String) : Nat → List Char → List Char
  | _, [] => []
  | 0, cs => cs
  | f + 1, c :: rest =>
    match phName (c :: rest) with
    | some name => applyEnvName env name ++ substCharsF env f (rest.drop (name.length + 2))
    | none => c :: substCharsF env f rest

/-- `pattern.sub(replace, s)` for one string scalar. -/
def substString (env : String → Option String) (s : String) : String :=
  String.mk (substCharsF env s.data.length s.data)

/-- The placeholder text `${name}` as a string. -/
def placeholder (name : String) : String :=
  "$\x7b" ++ name ++ "\x7d"

mutual

/-- The `search_replace` walk of `substitute_env_variables`: dict values and
list elements are transformed recursively, string scalars go through
`pattern.sub`, all other scalars are returned unchanged. -/
def substYaml (env : String → Option String) : Yaml → Yaml
  | .str s => .str (substString env s)
  | .int n => .int n
  | .bool b => .bool b
  | .null => .null
  | .map kvs => .map (substYamlEntries env kvs)
  | .list xs => .list (substYamlItems env xs)

/-- `search_replace` on the entries of a dict: values transformed, keys kept
(`{k: search_replace(v) for k, v in obj.items()}`). -/
def substYamlEntries (env : String → Option String) :
    List (String × Yaml) → List (String × Yaml)
  | [] => []
  | p :: rest => (p.1, substYaml env p.2) :: substYamlEntries env rest

/-- `search_replace` on the elements of a list. -/
def substYamlItems (env : String → Option String) : List Yaml → List Yaml
  | [] => []
  | v :: rest => substYaml env v :: substYamlItems env rest

end

/-- Argument carried by a raised `SystemExit`: no argument (`exit()`), an
integer status, or an arbitrary non-integer object such as an exception. -/
inductive PyExitArg where
  | noArg
  | intArg (n : Int)
  | exceptionArg
deriving DecidableEq, Repr

/-- Process exit status the Python interpreter assigns to an uncaught
`SystemExit`: 0 for no argument or `None`, the integer itself for an integer
argument, 1 (after printing the object) otherwise. -/
def pyExitCode : PyExitArg → Int
  | .noArg => 0
  | .intArg n => n
  | .exceptionArg => 1

/-- Model of `load_config`: `parsed` is the outcome of
`yaml.safe_load(open(filepath))` (`none` when the file is unreadable or the
YAML malformed, i.e. `FileNotFoundError` / `yaml.YAMLError`); then
environment substitution and `Config.model_validate`. Any of the three
caught failures is logged and re-raised as `SystemExit(e)` with the caught
exception object as argument. -/
def load_config (parsed : Option Yaml) (env : String → Option String)
    (isAddr : String → Bool) : Except PyExitArg Config :=
  match parsed with
  | none => .error .exceptionArg
  | some tree =>
    match validateConfig isAddr (substYaml env tree) with
    | .ok c => .ok c
    | .error _ => .error .exceptionArg

/-- The module-level load in main.py:
`try: config = load_config("config.yaml") except SystemExit: exit()` —
run before the Starlette app is constructed, so on `.error code` the process
terminates with status `code` without ever serving a request. `exit()`
raises a fresh `SystemExit` with no argument. -/
def moduleStartup (parsed : Option Yaml) (env : String → Option String)
    (isAddr : String → Bool) : Except Int Config :=
  match load_config parsed env isAddr with
  | .ok c => .ok c
  | .error _ => .error (pyExitCode .noArg)

/-- Outcome of the middleware layer for one request: a 401 JSON error body
`{"error": <msg>}` or the request being passed to `call_next`. -/
inductive HttpResponse where
  | errorJson (status : Nat) (error : String)
  | next
deriving DecidableEq, Repr

/-- First component of Python `s.partition(' ')`: the characters before the
first space, the whole string when there is none. -/
def partitionChFst : List Char → List Char
  | [] => []
  | c :: cs => if c = ' ' then [] else c :: partitionChFst cs

/-- Third component of Python `s.partition(' ')`: the characters after the
first space, empty when there is none. -/
def partitionChSnd : List Char → List Char
  | [] => []
  | c :: cs => if c = ' ' then cs else partitionChSnd cs

/-- `scheme` in `scheme, _, token = authorization.partition(' ')`. -/
def pyPartitionFst (s : String) : String :=
  String.mk (partitionChFst s.data)

/-- `token` in `scheme, _, token = authorization.partition(' ')`. -/
def pyPartitionSnd (s : String) : String :=
  String.mk (partitionChSnd s.data)

/-- Python `str.lower()` on the scheme (ASCII case folding; the comparison
target is the ASCII literal "bearer"). -/
def pyLower (s : String) : String :=
  String.mk (s.data.map Char.toLower)

/-- `BearerTokenAuthMiddleware.dispatch`: `request.headers.get` yields `none`
when the header is absent; `if not authorization` is true for both `None`
and the empty string; otherwise the header is partitioned at the first space
and the scheme (case-insensitively) and token are compared. -/
def dispatch (static_token : String) (authorization : Option String) :
    HttpResponse :=
  match authorization with
  | none => .errorJson 401 "Authorization header missing"
  | some s =>
    if s = "" then .errorJson 401 "Authorization header missing"
    else if pyPartitionFst s = "" ∨ pyLower (pyPartitionFst s) ≠ "bearer"
        ∨ pyPartitionSnd s ≠ static_token then
      .errorJson 401 "Unauthorized"
    else .next

/-- The middleware installation at module level:
`if config.static_bearer_token: app.add_middleware(...)`. Python truthiness
makes both `None` and `""` skip the middleware, so those requests reach the
route handler directly. -/
def appRespond (cfg : Config) (authorization : Option String) : HttpResponse :=
  match cfg.static_bearer_token with
  | some t => if t ≠ "" then dispatch t authorization else .next
  | none => .next

/-- Minimal shift `k` (computed with `fuel ≥ that shift`) such that
`n / 2 ^ k < 2 ^ 53`, i.e. the binary exponent above 52. -/
def floor53Shift (fuel n : Nat) : Nat :=
  match fuel with
  | 0 => 0
  | f + 1 => if n < 2 ^ 53 then 0 else floor53Shift f (n / 2) + 1

/-- Model of Python `float(int)` as performed inside
`prometheus_client` `Gauge.set(value)` (`self._value.set(float(value))`):
the integer value of the IEEE-754 binary64 nearest to `n`, ties to even.
Integers below 2^53 are exact; larger ones are rounded at the 53rd
significant bit. (Balances are < 2^256, far below the binary64 overflow
threshold of 2^1024, so no OverflowError arises.) -/
def floatOfNat (n : Nat) : Nat :=
  if n < 2 ^ 53 then n
  else
    let k := floor53Shift n n
    let q := n / 2 ^ k
    let r := n % 2 ^ k
    let half := 2 ^ (k - 1)
    let q' := if half < r ∨ (r = half ∧ q % 2 = 1) then q + 1 else q
    q' * 2 ^ k

/-- Label tuple of the `ethereum_balance` gauge:
`labels(address=..., address_name=..., network_name=...)`. -/
structure LabelTuple where
  address : String
  address_name : String
  network_name : String
deriving DecidableEq, Repr

/-- Current gauge values keyed by label tuple; `none` marks a never-written
series. -/
abbrev Registry := LabelTuple → Option Nat

/-- `balance_gauge.labels(...).set(v)`: overwrite the one entry, leave every
other label tuple untouched. -/
def regSet (r : Registry) (t : LabelTuple) (v : Nat) : Registry :=
  fun t' => if t' = t then some v else r t'

/-- The body of the inner `for address` loop before the log line: when the
address is bound to the current network, query the balance; on success
record a gauge write (value as stored by the float-backed gauge) and bind
the local variable `balance`; on a caught `web3` failure (`query` = `none`)
write nothing and leave `balance` as it was. Returns (new writes, state of
the local `balance` variable). -/
def pollStep (query : String → String → Option Nat) (net : Network)
    (a : Address) (balanceVar : Option Nat) :
    List (LabelTuple × Nat) × Option Nat :=
  if a.network = net.name then
    match query net.rpc_endpoint a.address with
    | some b => ([(⟨a.address, a.name, net.name⟩, floatOfNat b)], some b)
    | none => ([], balanceVar)
  else ([], balanceVar)

/-- The inner `for address in config.addresses` loop of `update_metrics`.
After each address (bound to this network or not) the source executes
`logger.info(f"... to {balance} wei")`; when the local variable `balance`
has never been assigned in this call, Python raises `UnboundLocalError`
there, which no handler catches — the third component `true` marks that
abort of the whole cycle. -/
def pollAddresses (query : String → String → Option Nat) (net : Network)
    (as : List Address) (balanceVar : Option Nat) :
    List (LabelTuple × Nat) × Option Nat × Bool :=
  match as with
  | [] => ([], balanceVar, false)
  | a :: rest =>
    let s := pollStep query net a balanceVar
    match s.2 with
    | none => (s.1, none, true)
    | some b =>
      let t := pollAddresses query net rest (some b)
      (s.1 ++ t.1, t.2.1, t.2.2)

/-- The outer `for network in config.networks` loop of `update_metrics`;
an abort in the inner loop propagates (the exception leaves
`update_metrics`). -/
def pollNetworks (query : String → String → Option Nat) (nets : List Network)
    (as : List Address) (balanceVar : Option Nat) :
    List (LabelTuple × Nat) × Option Nat × Bool :=
  match nets with
  | [] => ([], balanceVar, false)
  | n :: rest =>
    let t := pollAddresses query n as balanceVar
    if t.2.2 then t
    else
      let u := pollNetworks query rest as t.2.1
      (t.1 ++ u.1, u.2.1, u.2.2)

/-- The gauge writes of one `update_metrics()` call, in execution order, and
whether the call aborted with an uncaught `UnboundLocalError`. `query e a`
models `Web3(Web3.HTTPProvider(e)).eth.get_balance(a)`: `some balance` on
success, `none` when a caught `web3_exceptions.Web3Exception` is raised. -/
def cycleWrites (query : String → String → Option Nat) (cfg : Config) :
    List (LabelTuple × Nat) × Bool :=
  let t := pollNetworks query cfg.networks cfg.addresses none
  (t.1, t.2.2)

/-- Apply gauge writes to the registry in order. -/
def applyWrites (ws : List (LabelTuple × Nat)) (r : Registry) : Registry :=
  ws.foldl (fun acc w => regSet acc w.1 w.2) r

/-- One `update_metrics()` call against registry `r`: the registry after all
writes performed before returning or aborting, plus the abort flag. -/
def update_metrics (query : String → String → Option Nat) (cfg : Config)
    (r : Registry) : Registry × Bool :=
  (applyWrites (cycleWrites query cfg).1 r, (cycleWrites query cfg).2)

/-- Value of the last write in `ws` touching label tuple `t`, if any. -/
def lastWrite (ws : List (LabelTuple × Nat)) (t : LabelTuple) : Option Nat :=
  match ws with
  | [] => none
  | w :: rest =>
    match lastWrite rest t with
    | some v => some v
    | none => if t = w.1 then some w.2 else none

/-- The valid Ethereum address used in the spec's end-to-end example. -/
def demoAddrStr : String := "0x0000000000000000000000000000000000000001"

/-- Network from the spec's end-to-end example. -/
def demoNetwork : Network := ⟨"mainnet", "http://node.example"⟩

/-- Address from the spec's end-to-end example, bound to `mainnet`. -/
def demoAddress : Address := ⟨demoAddrStr, "wallet1", "mainnet"⟩

/-- One-network, one-address configuration, no bearer token. -/
def cfgDemo : Config := ⟨[demoAddress], [demoNetwork], 60, none⟩

/-- The gauge label tuple produced for `demoAddress` on `demoNetwork`. -/
def demoTuple : LabelTuple := ⟨demoAddrStr, "wallet1", "mainnet"⟩

/-- Registry before any successful poll. -/
def emptyRegistry : Registry := fun _ => none

/-- Configuration with a nonempty bearer token. -/
def cfgTok : Config := ⟨[demoAddress], [demoNetwork], 60, some "secret"⟩

/-- Parsed configuration tree whose single address references network
`nosuchnet` while the only declared network is `mainnet`. -/
def yamlC5 : Yaml :=
  .map
    [("addresses", .list
        [ .map [("address", .str demoAddrStr), ("name", .str "wallet1"),
                ("network", .str "nosuchnet")]]),
     ("networks", .list
        [ .map [("name", .str "mainnet"),
                ("rpc_endpoint", .str "http://node.example")]]),
     ("update_interval_seconds", .int 60)]

/-- The Config that `Config.model_validate` produces from `yamlC5`. -/
def cfgC5 : Config :=
  ⟨[⟨demoAddrStr, "wallet1", "nosuchnet"⟩], [demoNetwork], 60, none⟩

/-- Parsed configuration tree declaring two networks that share the empty
string as name. -/
def yamlC6 : Yaml :=
  .map
    [("addresses", .list
        [ .map [("address", .str demoAddrStr), ("name", .str "wallet1"),
                ("network", .str "")]]),
     ("networks", .list
        [ .map [("name", .str ""), ("rpc_endpoint", .str "http://a.example")],
          .map [("name", .str ""), ("rpc_endpoint", .str "http://b.example")]]),
     ("update_interval_seconds", .int 60)]

/-- The Config that `Config.model_validate` produces from `yamlC6`. -/
def cfgC6 : Config :=
  ⟨[⟨demoAddrStr, "wallet1", ""⟩],
   [⟨"", "http://a.example"⟩, ⟨"", "http://b.example"⟩], 60, none⟩

/-- Parsed configuration tree with `static_bearer_token` present and equal to
the empty string. -/
def yamlC10 : Yaml :=
  .map
    [("addresses", .list
        [ .map [("address", .str demoAddrStr), ("name", .str "wallet1"),
                ("network", .str "mainnet")]]),
     ("networks", .list
        [ .map [("name", .str "mainnet"),
                ("rpc_endpoint", .str "http://node.example")]]),
     ("update_interval_seconds", .int 60),
     ("static_bearer_token", .str "")]

/-- The Config that `Config.model_validate` produces from `yamlC10`. -/
def cfgC10 : Config := ⟨[demoAddress], [demoNetwork], 60, some ""⟩

/-- Top-level entries of a configuration whose network name contains a
space. -/
def kvsC7 : List (String × Yaml) :=
  [("addresses", .list
      [ .map [("address", .str demoAddrStr), ("name", .str "wallet1"),
              ("network", .str "main net")]]),
   ("networks", .list
      [ .map [("name", .str "main net"),
              ("rpc_endpoint", .str "http://node.example")]]),
   ("update_interval_seconds", .int 60)]

/-- Environment with exactly one variable set: HOME=/root. -/
def envDemo : String → Option String :=
  fun n => if n = "HOME" then some "/root" else none

theorem combine2_ok {α β : Type} {x : Except (List FieldError) α}
    {y : Except (List FieldError) β} {a : α} {b : β}
    (h : combine2 x y = .ok (a, b)) : x = .ok a ∧ y = .ok b := by
  cases x with
  | ok a' =>
    cases y with
    | ok b' =>
      simp [combine2] at h
      exact ⟨by rw [h.1], by rw [h.2]⟩
    | error e => simp [combine2] at h
  | error e => cases y <;> simp [combine2] at h

theorem combine2_error_left {α β : Type} {x : Except (List FieldError) α}
    {ex : List FieldError} {e : FieldError} (hx : x = .error ex) (he : e ∈ ex)
    (y : Except (List FieldError) β) :
    ∃ errs, combine2 x y = .error errs ∧ e ∈ errs := by
  subst hx
  cases y with
  | ok b => exact ⟨ex, rfl, he⟩
  | error ey => exact ⟨ex ++ ey, rfl, List.mem_append_left _ he⟩

theorem combine2_error_right {α β : Type} {y : Except (List FieldError) β}
    {ey : List FieldError} {e : FieldError} (hy : y = .error ey) (he : e ∈ ey)
    (x : Except (List FieldError) α) :
    ∃ errs, combine2 x y = .error errs ∧ e ∈ errs := by
  subst hy
  cases x with
  | ok a => exact ⟨ey, rfl, he⟩
  | error ex => exact ⟨ex ++ ey, rfl, List.mem_append_right _ he⟩

theorem combineCons_ok {α : Type} {x : Except (List FieldError) α}
    {y : Except (List FieldError) (List α)} {l : List α}
    (h : combineCons x y = .ok l) :
    ∃ a as, l = a :: as ∧ x = .ok a ∧ y = .ok as := by
  cases x with
  | ok a =>
    cases y with
    | ok as =>
      simp [combineCons] at h
      exact ⟨a, as, h.symm, rfl, rfl⟩
    | error e => simp [combineCons] at h
  | error e => cases y <;> simp [combineCons] at h

theorem combineCons_error_left {α : Type} {x : Except (List FieldError) α}
    {ex : List FieldError} {e : FieldError} (hx : x = .error ex) (he : e ∈ ex)
    (y : Except (List FieldError) (List α)) :
    ∃ errs, combineCons x y = .error errs ∧ e ∈ errs := by
  subst hx
  cases y with
  | ok as => exact ⟨ex, rfl, he⟩
  | error ey => exact ⟨ex ++ ey, rfl, List.mem_append_left _ he⟩

theorem combineCons_error_right {α : Type}
    {y : Except (List FieldError) (List α)} {ey : List FieldError}
    {e : FieldError} (hy : y = .error ey) (he : e ∈ ey)
    (x : Except (List FieldError) α) :
    ∃ errs, combineCons x y = .error errs ∧ e ∈ errs := by
  subst hy
  cases x with
  | ok a => exact ⟨ey, rfl, he⟩
  | error ex => exact ⟨ex ++ ey, rfl, List.mem_append_right _ he⟩

theorem checkNameField_ok {path : List String} {w : Option Yaml} {s : String}
    (h : checkNameField path w = .ok s) : labelSafe s = true := by
  cases w with
  | none => simp [checkNameField] at h
  | some y =>
    cases y with
    | str s' =>
      by_cases hl : labelSafe s' <;> simp [checkNameField, hl] at h
      rw [← h]
      exact hl
    | int n => simp [checkNameField] at h
    | bool b => simp [checkNameField] at h
    | null => simp [checkNameField] at h
    | map kvs => simp [checkNameField] at h
    | list xs => simp [checkNameField] at h

theorem validateNetworkAt_ok {i : Nat} {v : Yaml} {net : Network}
    (h : validateNetworkAt i v = .ok net) : labelSafe net.name = true := by
  cases v with
  | map kvs =>
    cases hc : combine2
        (checkNameField ["networks", toString i, "name"] (lookupKey kvs "name"))
        (checkStrField ["networks", toString i, "rpc_endpoint"]
          (lookupKey kvs "rpc_endpoint")) with
    | ok p =>
      simp [validateNetworkAt, hc] at h
      obtain ⟨hn, _⟩ := combine2_ok hc
      rw [← h]
      exact checkNameField_ok hn
    | error e => simp [validateNetworkAt, hc] at h
  | str s => simp [validateNetworkAt] at h
  | int n => simp [validateNetworkAt] at h
  | bool b => simp [validateNetworkAt] at h
  | null => simp [validateNetworkAt] at h
  | list xs => simp [validateNetworkAt] at h

theorem validateNetworksGo_ok {items : List Yaml} :
    ∀ {i : Nat} {nets : List Network}, validateNetworksGo i items = .ok nets →
      ∀ net ∈ nets, labelSafe net.name = true := by
  induction items with
  | nil =>
    intro i nets h net hm
    simp [validateNetworksGo] at h
    rw [h] at hm
    simp at hm
  | cons v rest ih =>
    intro i nets h net hm
    obtain ⟨a, as, rfl, hx, hy⟩ := combineCons_ok h
    rcases List.mem_cons.mp hm with rfl | hm'
    · exact validateNetworkAt_ok hx
    · exact ih hy net hm'

theorem validateNetworksField_ok {w : Option Yaml} {nets : List Network}
    (h : validateNetworksField w = .ok nets) :
    ∀ net ∈ nets, labelSafe net.name = true := by
  cases w with
  | none => simp [validateNetworksField] at h
  | some y =>
    cases y with
    | list items =>
      by_cases hne : items.isEmpty <;> simp [validateNetworksField, hne] at h
      exact validateNetworksGo_ok h
    | str s => simp [validateNetworksField] at h
    | int n => simp [validateNetworksField] at h
    | bool b => simp [validateNetworksField] at h
    | null => simp [validateNetworksField] at h
    | map kvs => simp [validateNetworksField] at h

theorem validateNetworkAt_badname {i : Nat} {nkvs : List (String × Yaml)}
    {s : String} (hlk : lookupKey nkvs "name" = some (.str s))
    (hbad : labelSafe s = false) :
    ∃ es, validateNetworkAt i (.map nkvs) = .error es ∧
      (⟨["networks", toString i, "name"],
        "name must be Prometheus label compatible"⟩ : FieldError) ∈ es := by
  have hname : checkNameField ["networks", toString i, "name"]
      (lookupKey nkvs "name") =
      .error [⟨["networks", toString i, "name"],
        "name must be Prometheus label compatible"⟩] := by
    rw [hlk]
    simp [checkNameField, hbad]
  obtain ⟨errs, hc, hm⟩ := combine2_error_left hname (List.mem_singleton.mpr rfl)
    (checkStrField ["networks", toString i, "rpc_endpoint"]
      (lookupKey nkvs "rpc_endpoint"))
  exact ⟨errs, by simp [validateNetworkAt, hc], hm⟩

theorem validateAddressAt_badname {isAddr : String → Bool} {i : Nat}
    {akvs : List (String × Yaml)} {s : String}
    (hlk : lookupKey akvs "name" = some (.str s))
    (hbad : labelSafe s = false) :
    ∃ es, validateAddressAt isAddr i (.map akvs) = .error es ∧
      (⟨["addresses", toString i, "name"],
        "name must be Prometheus label compatible"⟩ : FieldError) ∈ es := by
  have hname : checkNameField ["addresses", toString i, "name"]
      (lookupKey akvs "name") =
      .error [⟨["addresses", toString i, "name"],
        "name must be Prometheus label compatible"⟩] := by
    rw [hlk]
    simp [checkNameField, hbad]
  obtain ⟨errs1, hc1, hm1⟩ := combine2_error_right hname
    (List.mem_singleton.mpr rfl)
    (checkAddressField isAddr ["addresses", toString i, "address"]
      (lookupKey akvs "address"))
  obtain ⟨errs, hc, hm⟩ := combine2_error_left hc1 hm1
    (checkStrField ["addresses", toString i, "network"]
      (lookupKey akvs "network"))
  exact ⟨errs, by simp [validateAddressAt, hc], hm⟩

theorem validateNetworksGo_error_mem :
    ∀ (items : List Yaml) (j i : Nat) (v : Yaml) (es : List FieldError)
      (e : FieldError), items[i]? = some v →
      validateNetworkAt (j + i) v = .error es → e ∈ es →
      ∃ errs, validateNetworksGo j items = .error errs ∧ e ∈ errs := by
  intro items
  induction items with
  | nil =>
    intro j i v es e hget
    simp at hget
  | cons x rest ih =>
    intro j i v es e hget hval hmem
    cases i with
    | zero =>
      simp at hget
      rw [← hget] at hval
      rw [Nat.add_zero] at hval
      obtain ⟨errs, hc, hm⟩ := combineCons_error_left hval hmem
        (validateNetworksGo (j + 1) rest)
      exact ⟨errs, by simpa [validateNetworksGo] using hc, hm⟩
    | succ i' =>
      simp at hget
      have harith : j + (i' + 1) = (j + 1) + i' := by omega
      rw [harith] at hval
      obtain ⟨errs2, hgo, hm2⟩ := ih (j + 1) i' v es e (by simpa using hget) hval hmem
      obtain ⟨errs, hc, hm⟩ := combineCons_error_right hgo hm2 (validateNetworkAt j x)
      exact ⟨errs, by simpa [validateNetworksGo] using hc, hm⟩

theorem validateAddressesGo_error_mem {isAddr : String → Bool} :
    ∀ (items : List Yaml) (j i : Nat) (v : Yaml) (es : List FieldError)
      (e : FieldError), items[i]? = some v →
      validateAddressAt isAddr (j + i) v = .error es → e ∈ es →
      ∃ errs, validateAddressesGo isAddr j items = .error errs ∧ e ∈ errs := by
  intro items
  induction items with
  | nil =>
    intro j i v es e hget
    simp at hget
  | cons x rest ih =>
    intro j i v es e hget hval hmem
    cases i with
    | zero =>
      simp at hget
      rw [← hget] at hval
      rw [Nat.add_zero] at hval
      obtain ⟨errs, hc, hm⟩ := combineCons_error_left hval hmem
        (validateAddressesGo isAddr (j + 1) rest)
      exact ⟨errs, by simpa [validateAddressesGo] using hc, hm⟩
    | succ i' =>
      simp at hget
      have harith : j + (i' + 1) = (j + 1) + i' := by omega
      rw [harith] at hval
      obtain ⟨errs2, hgo, hm2⟩ := ih (j + 1) i' v es e (by simpa using hget) hval hmem
      obtain ⟨errs, hc, hm⟩ := combineCons_error_right hgo hm2
        (validateAddressAt isAddr j x)
      exact ⟨errs, by simpa [validateAddressesGo] using hc, hm⟩

theorem validateConfig_networks_error {isAddr : String → Bool}
    {kvs : List (String × Yaml)} {errsN : List FieldError} {e : FieldError}
    (h : validateNetworksField (lookupKey kvs "networks") = .error errsN)
    (he : e ∈ errsN) :
    ∃ errs, validateConfig isAddr (.map kvs) = .error errs ∧ e ∈ errs := by
  obtain ⟨errs1, hc1, hm1⟩ := combine2_error_right h he
    (validateAddressesField isAddr (lookupKey kvs "addresses"))
  obtain ⟨errs, hc, hm⟩ := combine2_error_left hc1 hm1
    (combine2 (validateIntervalField (lookupKey kvs "update_interval_seconds"))
      (validateTokenField (lookupKey kvs "static_bearer_token")))
  exact ⟨errs, by simp [validateConfig, hc], hm⟩

theorem validateConfig_addresses_error {isAddr : String → Bool}
    {kvs : List (String × Yaml)} {errsA : List FieldError} {e : FieldError}
    (h : validateAddressesField isAddr (lookupKey kvs "addresses") = .error errsA)
    (he : e ∈ errsA) :
    ∃ errs, validateConfig isAddr (.map kvs) = .error errs ∧ e ∈ errs := by
  obtain ⟨errs1, hc1, hm1⟩ := combine2_error_left h he
    (validateNetworksField (lookupKey kvs "networks"))
  obtain ⟨errs, hc, hm⟩ := combine2_error_left hc1 hm1
    (combine2 (validateIntervalField (lookupKey kvs "update_interval_seconds"))
      (validateTokenField (lookupKey kvs "static_bearer_token")))
  exact ⟨errs, by simp [validateConfig, hc], hm⟩

theorem validateConfig_ok_networks {isAddr : String → Bool}
    {kvs : List (String × Yaml)} {cfg : Config}
    (h : validateConfig isAddr (.map kvs) = .ok cfg) :
    validateNetworksField (lookupKey kvs "networks") = .ok cfg.networks := by
  cases hc : combine2
      (combine2 (validateAddressesField isAddr (lookupKey kvs "addresses"))
        (validateNetworksField (lookupKey kvs "networks")))
      (combine2 (validateIntervalField (lookupKey kvs "update_interval_seconds"))
        (validateTokenField (lookupKey kvs "static_bearer_token"))) with
  | ok p =>
    simp [validateConfig, hc] at h
    obtain ⟨hl, _⟩ := combine2_ok hc
    obtain ⟨_, hn⟩ := combine2_ok hl
    rw [← h]
    exact hn
  | error e => simp [validateConfig, hc] at h

theorem floatOfNat_small {n : Nat} (h : n < 2 ^ 53) : floatOfNat n = n := by
  unfold floatOfNat
  rw [if_pos h]

theorem pollStep_writes {q : String → String → Option Nat} {net : Network}
    {a : Address} {bv : Option Nat} {w : LabelTuple × Nat}
    (h : w ∈ (pollStep q net a bv).1) :
    a.network = net.name ∧ w.1 = ⟨a.address, a.name, net.name⟩ ∧
      ∃ b, q net.rpc_endpoint a.address = some b ∧ w.2 = floatOfNat b := by
  unfold pollStep at h
  by_cases hm : a.network = net.name
  · rw [if_pos hm] at h
    cases hq : q net.rpc_endpoint a.address with
    | some b =>
      rw [hq] at h
      simp at h
      subst h
      exact ⟨hm, rfl, b, rfl, rfl⟩
    | none =>
      rw [hq] at h
      simp at h
  · rw [if_neg hm] at h
    simp at h

theorem pollAddresses_writes {q : String → String → Option Nat} {net : Network} :
    ∀ {as : List Address} {bv : Option Nat} {w : LabelTuple × Nat},
      w ∈ (pollAddresses q net as bv).1 →
      ∃ a ∈ as, a.network = net.name ∧ w.1 = ⟨a.address, a.name, net.name⟩ ∧
        ∃ b, q net.rpc_endpoint a.address = some b ∧ w.2 = floatOfNat b := by
  intro as
  induction as with
  | nil =>
    intro bv w h
    simp [pollAddresses] at h
  | cons a rest ih =>
    intro bv w h
    cases hs : (pollStep q net a bv).2 with
    | none =>
      simp only [pollAddresses, hs] at h
      obtain ⟨h1, h2, h3⟩ := pollStep_writes h
      exact ⟨a, List.mem_cons_self a rest, h1, h2, h3⟩
    | some b =>
      simp only [pollAddresses, hs] at h
      rcases List.mem_append.mp h with hl | hr
      · obtain ⟨h1, h2, h3⟩ := pollStep_writes hl
        exact ⟨a, List.mem_cons_self a rest, h1, h2, h3⟩
      · obtain ⟨a', ha', rest'⟩ := ih hr
        exact ⟨a', List.mem_cons_of_mem a ha', rest'⟩

theorem pollNetworks_writes {q : String → String → Option Nat}
    {as : List Address} :
    ∀ {nets : List Network} {bv : Option Nat} {w : LabelTuple × Nat},
      w ∈ (pollNetworks q nets as bv).1 →
      ∃ net ∈ nets, ∃ a ∈ as, a.network = net.name ∧
        w.1 = ⟨a.address, a.name, net.name⟩ ∧
        ∃ b, q net.rpc_endpoint a.address = some b ∧ w.2 = floatOfNat b := by
  intro nets
  induction nets with
  | nil =>
    intro bv w h
    simp [pollNetworks] at h
  | cons n rest ih =>
    intro bv w h
    by_cases hab : (pollAddresses q n as bv).2.2
    · simp only [pollNetworks, if_pos hab] at h
      obtain ⟨a, ha, rest'⟩ := pollAddresses_writes h
      exact ⟨n, List.mem_cons_self n rest, a, ha, rest'⟩
    · simp only [pollNetworks, if_neg hab] at h
      rcases List.mem_append.mp h with hl | hr
      · obtain ⟨a, ha, rest'⟩ := pollAddresses_writes hl
        exact ⟨n, List.mem_cons_self n rest, a, ha, rest'⟩
      · obtain ⟨n', hn', rest'⟩ := ih hr
        exact ⟨n', List.mem_cons_of_mem n hn', rest'⟩

theorem cycleWrites_writes {q : String → String → Option Nat} {cfg : Config}
    {w : LabelTuple × Nat} (h : w ∈ (cycleWrites q cfg).1) :
    ∃ net ∈ cfg.networks, ∃ a ∈ cfg.addresses, a.network = net.name ∧
      w.1 = ⟨a.address, a.name, net.name⟩ ∧
      ∃ b, q net.rpc_endpoint a.address = some b ∧ w.2 = floatOfNat b :=
  pollNetworks_writes h

theorem applyWrites_apply :
    ∀ (ws : List (LabelTuple × Nat)) (r : Registry) (t : LabelTuple),
      applyWrites ws r t =
        match lastWrite ws t with
        | some v => some v
        | none => r t := by
  intro ws
  induction ws with
  | nil => intro r t; rfl
  | cons w rest ih =>
    intro r t
    show applyWrites rest (regSet r w.1 w.2) t = _
    rw [ih]
    cases hl : lastWrite rest t with
    | some v => simp [lastWrite, hl]
    | none =>
      by_cases ht : t = w.1
      · subst ht
        simp [lastWrite, hl, regSet]
      · simp [lastWrite, hl, regSet, ht]

/-- Claim C1. The claim says that on any configuration load/validation
failure the process terminates with a NON-ZERO exit code before serving.
The code does terminate before serving, but with exit status 0:
`load_config` raises `SystemExit(e)` (which alone would exit with status 1),
yet the module-level `except SystemExit: exit()` swallows it and `exit()`
raises a fresh `SystemExit` with no argument, so the interpreter exits with
status 0. Evaluated here at the failing input "config.yaml unreadable or
malformed" (`parsed = none`). -/
theorem c1_config_failure_exits_zero :
    load_config none envDemo lowerHexAddress = .error .exceptionArg ∧
    pyExitCode .exceptionArg = 1 ∧
    moduleStartup none envDemo lowerHexAddress = .error 0 :=
  ⟨rfl, rfl, rfl⟩

/-- Claim C2. The claim says a failing balance query leaves the registry
entry unmodified and the cycle continues. In the code, when the first
matching address's query fails, the `logger.info` line after the
`try/except` references the never-assigned local `balance` and raises
`UnboundLocalError`, aborting the whole cycle: with the one-network
one-address configuration, a failing query produces no writes and the abort
flag (first conjunct), leaving the registry untouched (second conjunct),
while the same cycle with a succeeding query completes normally (third
conjunct). -/
theorem c2_first_failure_aborts_cycle :
    cycleWrites (fun _ _ => none) cfgDemo = ([], true) ∧
    (update_metrics (fun _ _ => none) cfgDemo emptyRegistry).1 demoTuple = none ∧
    cycleWrites (fun _ _ => some 5) cfgDemo = ([(demoTuple, 5)], false) := by
  decide

/-- Claim C3 (counterexample). The claim says every successfully queried
balance is written exactly, with no floating-point conversion, for all
values up to 2^256−1. `prometheus_client`'s `Gauge.set` stores
`float(value)`: at balance 2^256−1 the stored value is the nearest binary64,
2^256, not the balance. -/
theorem c3_counterexample :
    floatOfNat (2 ^ 256 - 1) = 2 ^ 256 ∧
    (update_metrics (fun _ _ => some (2 ^ 256 - 1)) cfgDemo emptyRegistry).1
        demoTuple = some (2 ^ 256) ∧
    (2 ^ 256 : Nat) ≠ 2 ^ 256 - 1 := by
  decide

/-- Claim C3 (amended). The value written into the registry is
`float(balance)`; it equals the queried balance exactly whenever every
returned balance is below 2^53 (exactly representable in binary64). -/
theorem c3_exact_below_2_pow_53 (q : String → String → Option Nat)
    (cfg : Config) (hsmall : ∀ e a b, q e a = some b → b < 2 ^ 53) :
    ∀ w ∈ (cycleWrites q cfg).1,
      ∃ net ∈ cfg.networks, q net.rpc_endpoint w.1.address = some w.2 := by
  intro w hw
  obtain ⟨net, hnet, a, _, _, htup, b, hq, hval⟩ := cycleWrites_writes hw
  refine ⟨net, hnet, ?_⟩
  rw [htup]
  show q net.rpc_endpoint a.address = some w.2
  rw [hval, floatOfNat_small (hsmall _ _ _ hq)]
  exact hq

theorem c3_exact_below_2_pow_53_witness :
    ∃ net ∈ cfgDemo.networks,
      (fun _ _ => (some 7 : Option Nat)) net.rpc_endpoint
          (demoTuple, (7 : Nat)).1.address = some (demoTuple, (7 : Nat)).2 :=
  c3_exact_below_2_pow_53 (fun _ _ => some 7) cfgDemo
    (fun _ _ _ hb => by cases hb; decide) (demoTuple, 7) (by decide)

/-- Claim C5 (counterexample). The claim says load fails when an
`Address.network` matches no declared `Network.name`; in the code
`Config.model_validate` performs no cross-field check, so the configuration
whose only address references `nosuchnet` while the only network is
`mainnet` validates successfully. -/
theorem c5_counterexample :
    validateConfig lowerHexAddress yamlC5 = .ok cfgC5 ∧
    (∃ a ∈ cfgC5.addresses, ∀ net ∈ cfgC5.networks, net.name ≠ a.network) := by
  decide

/-- Claim C5 (amended). Load performs no cross-reference check (see the
counterexample); at poll time an address whose `network` matches no declared
network name is silently skipped: every gauge write of a cycle stems from an
address paired with a declared network whose name equals the address's
`network` field. -/
theorem c5_unmatched_network_never_polled (q : String → String → Option Nat)
    (cfg : Config) :
    ∀ w ∈ (cycleWrites q cfg).1,
      ∃ net ∈ cfg.networks, ∃ a ∈ cfg.addresses,
        a.network = net.name ∧ w.1 = ⟨a.address, a.name, net.name⟩ := by
  intro w hw
  obtain ⟨net, hnet, a, ha, hm, ht, _⟩ := cycleWrites_writes hw
  exact ⟨net, hnet, a, ha, hm, ht⟩

theorem c5_unmatched_network_never_polled_witness :
    ∃ net ∈ cfgDemo.networks, ∃ a ∈ cfgDemo.addresses,
      a.network = net.name ∧
      (demoTuple, (5 : Nat)).1 = ⟨a.address, a.name, net.name⟩ :=
  c5_unmatched_network_never_polled (fun _ _ => some 5) cfgDemo
    (demoTuple, 5) (by decide)

/-- Claim C6 (counterexample). The claim says network names in every loaded
config are pairwise unique and non-empty; the validators only reject the
four forbidden characters, so a configuration declaring two networks both
named `""` validates successfully. -/
theorem c6_counterexample :
    validateConfig lowerHexAddress yamlC6 = .ok cfgC6 ∧
    cfgC6.networks.map Network.name = ["", ""] := by
  decide

/-- Claim C6 (amended). The only guarantee `load` gives about network names
is label-safety (no space, double quote, or brace); neither uniqueness nor
non-emptiness is enforced (see the counterexample). -/
theorem c6_networks_label_safe_only (isAddr : String → Bool) (v : Yaml)
    (cfg : Config) (h : validateConfig isAddr v = .ok cfg) :
    ∀ net ∈ cfg.networks, labelSafe net.name = true := by
  cases v with
  | map kvs => exact validateNetworksField_ok (validateConfig_ok_networks h)
  | str s => simp [validateConfig] at h
  | int n => simp [validateConfig] at h
  | bool b => simp [validateConfig] at h
  | null => simp [validateConfig] at h
  | list xs => simp [validateConfig] at h

theorem c6_networks_label_safe_only_witness :
    labelSafe (Network.mk "" "http://a.example").name = true :=
  c6_networks_label_safe_only lowerHexAddress yamlC6 cfgC6 (by decide)
    ⟨"", "http://a.example"⟩ (by decide)

/-- Claim C7. If any `Network.name` or `Address.name` in the configuration
tree contains one of the forbidden characters (space, double quote, brace —
exactly the condition `labelSafe _ = false`), validation fails and the
aggregated error list contains an error whose location names that exact
`name` field. -/
theorem c7_bad_name_rejected (isAddr : String → Bool)
    (kvs : List (String × Yaml)) :
    (∀ (items : List Yaml) (i : Nat) (nkvs : List (String × Yaml)) (s : String),
      lookupKey kvs "networks" = some (.list items) →
      items[i]? = some (.map nkvs) →
      lookupKey nkvs "name" = some (.str s) → labelSafe s = false →
      ∃ errs, validateConfig isAddr (.map kvs) = .error errs ∧
        (⟨["networks", toString i, "name"],
          "name must be Prometheus label compatible"⟩ : FieldError) ∈ errs) ∧
    (∀ (items : List Yaml) (i : Nat) (akvs : List (String × Yaml)) (s : String),
      lookupKey kvs "addresses" = some (.list items) →
      items[i]? = some (.map akvs) →
      lookupKey akvs "name" = some (.str s) → labelSafe s = false →
      ∃ errs, validateConfig isAddr (.map kvs) = .error errs ∧
        (⟨["addresses", toString i, "name"],
          "name must be Prometheus label compatible"⟩ : FieldError) ∈ errs) := by
  constructor
  · intro items i nkvs s hlk hget hname hbad
    obtain ⟨es, hva, hme⟩ := @validateNetworkAt_badname i nkvs s hname hbad
    obtain ⟨errs2, hgo, hm2⟩ := validateNetworksGo_error_mem items 0 i
      (.map nkvs) es _ hget (by rw [Nat.zero_add]; exact hva) hme
    have hne : items.isEmpty = false := by
      cases items
      · simp at hget
      · rfl
    have hfield : validateNetworksField (lookupKey kvs "networks") = .error errs2 := by
      rw [hlk]
      simpa [validateNetworksField, hne] using hgo
    exact validateConfig_networks_error hfield hm2
  · intro items i akvs s hlk hget hname hbad
    obtain ⟨es, hva, hme⟩ := @validateAddressAt_badname isAddr i akvs s
      hname hbad
    obtain ⟨errs2, hgo, hm2⟩ := validateAddressesGo_error_mem items 0 i
      (.map akvs) es _ hget (by rw [Nat.zero_add]; exact hva) hme
    have hne : items.isEmpty = false := by
      cases items
      · simp at hget
      · rfl
    have hfield : validateAddressesField isAddr (lookupKey kvs "addresses") =
        .error errs2 := by
      rw [hlk]
      simpa [validateAddressesField, hne] using hgo
    exact validateConfig_addresses_error hfield hm2

theorem c7_bad_name_rejected_witness :
    ∃ errs, validateConfig lowerHexAddress (.map kvsC7) = .error errs ∧
      (⟨["networks", toString 0, "name"],
        "name must be Prometheus label compatible"⟩ : FieldError) ∈ errs :=
  (c7_bad_name_rejected lowerHexAddress kvsC7).1
    [.map [("name", .str "main net"), ("rpc_endpoint", .str "http://node.example")]]
    0 [("name", .str "main net"), ("rpc_endpoint", .str "http://node.example")]
    "main net" rfl rfl rfl (by decide)

/-- Claim C9. One poll cycle is idempotent for a fixed balance oracle:
running `update_metrics` a second time with a query returning the same
balances leaves the registry exactly as after the first run (each label
tuple ends at its last written value, and a cycle's writes depend only on
the configuration and the oracle, not on the registry). -/
theorem c9_run_once_idempotent (q : String → String → Option Nat)
    (cfg : Config) (r : Registry) :
    (update_metrics q cfg (update_metrics q cfg r).1).1 =
      (update_metrics q cfg r).1 := by
  funext t
  show applyWrites (cycleWrites q cfg).1 (applyWrites (cycleWrites q cfg).1 r) t =
    applyWrites (cycleWrites q cfg).1 r t
  simp only [applyWrites_apply]
  cases lastWrite (cycleWrites q cfg).1 t <;> simp

theorem strData_append (s t : String) : (s ++ t).data = s.data ++ t.data :=
  rfl

theorem strExt {s t : String} (h : s.data = t.data) : s = t := by
  cases s
  cases t
  exact congrArg String.mk h

theorem partFst_bearer (t : String) : pyPartitionFst ("Bearer " ++ t) = "Bearer" := by
  apply strExt
  show partitionChFst (("Bearer " ++ t).data) = "Bearer".data
  rw [strData_append]
  show partitionChFst ('B' :: 'e' :: 'a' :: 'r' :: 'e' :: 'r' :: ' ' :: t.data) = _
  simp [partitionChFst]

theorem partSnd_bearer (t : String) : pyPartitionSnd ("Bearer " ++ t) = t := by
  apply strExt
  show partitionChSnd (("Bearer " ++ t).data) = t.data
  rw [strData_append]
  show partitionChSnd ('B' :: 'e' :: 'a' :: 'r' :: 'e' :: 'r' :: ' ' :: t.data) = _
  simp [partitionChSnd]

theorem pyLower_bearer : pyLower "Bearer" = "bearer" := by
  decide

theorem bearer_append_ne_empty (t : String) : "Bearer " ++ t ≠ "" := by
  intro h
  have hd := congrArg String.data h
  rw [strData_append] at hd
  simp at hd

/-- Claim C8 (counterexample). The claim says every request whose scheme is
not Bearer gets the 401 body `{"error": "Unauthorized"}`. A request carrying
an EMPTY `Authorization` header has scheme `""` (not bearer), yet the code's
`if not authorization` treats it like an absent header and answers with the
`{"error": "Authorization header missing"}` body instead. -/
theorem c8_empty_header_counterexample :
    appRespond cfgTok (some "") = .errorJson 401 "Authorization header missing" ∧
    appRespond cfgTok (some "") ≠ .errorJson 401 "Unauthorized" ∧
    pyLower (pyPartitionFst "") ≠ "bearer" := by
  decide

/-- Claim C8 (amended). With a nonempty configured token: a request with an
absent or empty `Authorization` header gets 401 with body
`{"error": "Authorization header missing"}`; a request with a nonempty
header whose scheme does not case-insensitively equal `bearer` or whose
token differs from the configured one gets 401 with body
`{"error": "Unauthorized"}`; a correct `Bearer <token>` header is passed
through to the handler. With no configured token (absent or empty), every
request passes through. -/
theorem c8_auth_gate (cfg : Config) (t : String)
    (ht : cfg.static_bearer_token = some t) (hne : t ≠ "") :
    (appRespond cfg none = .errorJson 401 "Authorization header missing") ∧
    (appRespond cfg (some "") = .errorJson 401 "Authorization header missing") ∧
    (∀ s : String, s ≠ "" →
      pyLower (pyPartitionFst s) ≠ "bearer" ∨ pyPartitionSnd s ≠ t →
      appRespond cfg (some s) = .errorJson 401 "Unauthorized") ∧
    (appRespond cfg (some ("Bearer " ++ t)) = .next) ∧
    (∀ cfg' : Config,
      cfg'.static_bearer_token = none ∨ cfg'.static_bearer_token = some "" →
      ∀ auth, appRespond cfg' auth = .next) := by
  refine ⟨?_, ?_, ?_, ?_, ?_⟩
  · simp [appRespond, ht, hne, dispatch]
  · simp [appRespond, ht, hne, dispatch]
  · intro s hs hcond
    have hor : pyPartitionFst s = "" ∨ pyLower (pyPartitionFst s) ≠ "bearer"
        ∨ pyPartitionSnd s ≠ t := by
      rcases hcond with h | h
      · exact Or.inr (Or.inl h)
      · exact Or.inr (Or.inr h)
    simp [appRespond, ht, hne, dispatch, hs, hor]
  · simp [appRespond, ht, hne, dispatch, bearer_append_ne_empty t,
      partFst_bearer, partSnd_bearer, pyLower_bearer]
  · intro cfg' hcase auth
    rcases hcase with h | h <;> simp [appRespond, h]

theorem c8_auth_gate_witness :
    appRespond cfgTok none = .errorJson 401 "Authorization header missing" ∧
    appRespond cfgTok (some ("Bearer " ++ "secret")) = .next ∧
    appRespond cfgTok (some "Basic secret") = .errorJson 401 "Unauthorized" := by
  obtain ⟨h1, _, h3, h4, _⟩ := c8_auth_gate cfgTok "secret" rfl (by decide)
  exact ⟨h1, h4, h3 "Basic secret" (by decide) (Or.inl (by decide))⟩

/-- Claim C10. A configuration with `static_bearer_token` present but equal
to `""` validates successfully (the field only requires a string), and since
`if config.static_bearer_token:` is false for the empty string, the
middleware is not installed: every request — with or without an
`Authorization` header — is passed through, exactly as when no token is
configured at all. -/
theorem c10_empty_token_passthrough :
    validateConfig lowerHexAddress yamlC10 = .ok cfgC10 ∧
    cfgC10.static_bearer_token = some "" ∧
    (∀ cfg : Config, cfg.static_bearer_token = some "" →
      ∀ auth, appRespond cfg auth = .next) ∧
    (∀ cfg : Config, cfg.static_bearer_token = none →
      ∀ auth, appRespond cfg auth = .next) := by
  refine ⟨by decide, rfl, ?_, ?_⟩
  · intro cfg h auth
    simp [appRespond, h]
  · intro cfg h auth
    simp [appRespond, h]

theorem c10_empty_token_passthrough_witness :
    appRespond cfgC10 (some "anything") = .next ∧
    appRespond cfgDemo (some "anything") = .next := by
  obtain ⟨_, _, h3, h4⟩ := c10_empty_token_passthrough
  exact ⟨h3 cfgC10 rfl _, h4 cfgDemo rfl _⟩

theorem substF_nil (env : String → Option String) (f : Nat) :
    substCharsF env f [] = [] := by
  cases f <;> simp [substCharsF]

theorem substF_cons_some (env : String → Option String) (f : Nat) (c : Char)
    (rest name : List Char) (hp : phName (c :: rest) = some name) :
    substCharsF env (f + 1) (c :: rest) =
      applyEnvName env name ++ substCharsF env f (rest.drop (name.length + 2)) := by
  simp [substCharsF, hp]

theorem substF_cons_none (env : String → Option String) (f : Nat) (c : Char)
    (rest : List Char) (hp : phName (c :: rest) = none) :
    substCharsF env (f + 1) (c :: rest) = c :: substCharsF env f rest := by
  simp [substCharsF, hp]

theorem phName_not_dollar {c : Char} (h : c ≠ '$') (cs : List Char) :
    phName (c :: cs) = none := by
  cases cs with
  | nil => rfl
  | cons c2 rest => simp [phName, h]

theorem takeWhile_all_append (l : List Char) (x : Char) (t : List Char)
    (hl : ∀ c ∈ l, isWordChar c = true) (hx : isWordChar x = false) :
    (l ++ x :: t).takeWhile isWordChar = l := by
  induction l with
  | nil => simp [List.takeWhile, hx]
  | cons c rest ih =>
    have hc : isWordChar c = true := hl c (List.mem_cons_self c rest)
    simp [List.takeWhile, hc]
    exact ih (fun c' hc' => hl c' (List.mem_cons_of_mem c hc'))

theorem drop_len_succ {α : Type} :
    ∀ (l : List α) (x : α) (t : List α), (l ++ x :: t).drop (l.length + 1) = t := by
  intro l
  induction l with
  | nil => intro x t; rfl
  | cons y l ih => intro x t; exact ih x t

theorem phName_at_placeholder {name b : List Char} (hne : name ≠ [])
    (hw : ∀ c ∈ name, isWordChar c = true) :
    phName ('$' :: '\x7b' :: (name ++ '\x7d' :: b)) = some name := by
  have htw : (name ++ '\x7d' :: b).takeWhile isWordChar = name :=
    takeWhile_all_append name '\x7d' b hw (by decide)
  have hdr : (name ++ '\x7d' :: b).drop name.length = '\x7d' :: b :=
    List.drop_left name ('\x7d' :: b)
  have hie : name.isEmpty = false := by
    cases name with
    | nil => exact absurd rfl hne
    | cons x xs => rfl
  simp [phName, htw, hdr, hie]

theorem substF_fuel (env : String → Option String) :
    ∀ (f₁ : Nat) {f₂ : Nat} {cs : List Char}, cs.length ≤ f₁ →
      cs.length ≤ f₂ → substCharsF env f₁ cs = substCharsF env f₂ cs := by
  intro f₁
  induction f₁ with
  | zero =>
    intro f₂ cs h1 _
    have : cs = [] := List.length_eq_zero.mp (Nat.le_zero.mp h1)
    subst this
    simp [substF_nil]
  | succ f ih =>
    intro f₂ cs h1 h2
    cases cs with
    | nil => simp [substF_nil]
    | cons c rest =>
      cases f₂ with
      | zero => simp at h2
      | succ f2' =>
        cases hp : phName (c :: rest) with
        | some name =>
          rw [substF_cons_some env f c rest name hp,
            substF_cons_some env f2' c rest name hp]
          congr 1
          apply ih
          · simp [List.length_cons] at h1
            simp [List.length_drop]
            omega
          · simp [List.length_cons] at h2
            simp [List.length_drop]
            omega
        | none =>
          rw [substF_cons_none env f c rest hp, substF_cons_none env f2' c rest hp]
          congr 1
          apply ih
          · simp [List.length_cons] at h1
            omega
          · simp [List.length_cons] at h2
            omega

theorem substF_no_dollar (env : String → Option String) :
    ∀ (f : Nat) (cs : List Char), cs.length ≤ f → (∀ c ∈ cs, c ≠ '$') →
      substCharsF env f cs = cs := by
  intro f
  induction f with
  | zero =>
    intro cs h1 _
    have : cs = [] := List.length_eq_zero.mp (Nat.le_zero.mp h1)
    subst this
    simp [substF_nil]
  | succ f ih =>
    intro cs h1 hd
    cases cs with
    | nil => simp [substF_nil]
    | cons c rest =>
      have hc : c ≠ '$' := hd c (List.mem_cons_self c rest)
      rw [substF_cons_none env f c rest (phName_not_dollar hc rest)]
      congr 1
      apply ih
      · simp [List.length_cons] at h1
        omega
      · exact fun c' h' => hd c' (List.mem_cons_of_mem c h')

theorem substF_placeholder (env : String → Option String) :
    ∀ (a : List Char) (f : Nat) (name b : List Char),
      (a ++ '$' :: '\x7b' :: (name ++ '\x7d' :: b)).length ≤ f →
      (∀ c ∈ a, c ≠ '$') → name ≠ [] → (∀ c ∈ name, isWordChar c = true) →
      substCharsF env f (a ++ '$' :: '\x7b' :: (name ++ '\x7d' :: b)) =
        a ++ (applyEnvName env name ++ substCharsF env b.length b) := by
  intro a
  induction a with
  | nil =>
    intro f name b hlen hd hne hw
    simp only [List.nil_append] at hlen ⊢
    cases f with
    | zero => simp at hlen
    | succ f' =>
      rw [substF_cons_some env f' '$' ('\x7b' :: (name ++ '\x7d' :: b)) name
        (phName_at_placeholder hne hw)]
      congr 1
      have hdrop : ('\x7b' :: (name ++ '\x7d' :: b)).drop (name.length + 2) = b := by
        show (name ++ '\x7d' :: b).drop (name.length + 1) = b
        exact drop_len_succ name '\x7d' b
      rw [hdrop]
      apply substF_fuel
      · simp [List.length_cons, List.length_append] at hlen
        omega
      · exact Nat.le_refl _
  | cons c a' ih =>
    intro f name b hlen hd hne hw
    have hc : c ≠ '$' := hd c (List.mem_cons_self c a')
    cases f with
    | zero => simp at hlen
    | succ f' =>
      rw [List.cons_append]
      rw [substF_cons_none env f' c (a' ++ '$' :: '\x7b' :: (name ++ '\x7d' :: b))
        (phName_not_dollar hc _)]
      rw [ih f' name b
        (by
          simp [List.length_cons, List.length_append] at hlen ⊢
          omega)
        (fun c' h' => hd c' (List.mem_cons_of_mem c h')) hne hw]
      simp [List.cons_append]

theorem substYamlEntries_eq (env : String → Option String) :
    ∀ kvs, substYamlEntries env kvs = kvs.map (fun p => (p.1, substYaml env p.2)) := by
  intro kvs
  induction kvs with
  | nil => simp [substYamlEntries]
  | cons p rest ih => simp [substYamlEntries, ih]

theorem substYamlItems_eq (env : String → Option String) :
    ∀ xs, substYamlItems env xs = xs.map (substYaml env) := by
  intro xs
  induction xs with
  | nil => simp [substYamlItems]
  | cons v rest ih => simp [substYamlItems, ih]

theorem placeholder_data (name : String) :
    (placeholder name).data = '$' :: '\x7b' :: (name.data ++ [ '\x7d' ]) := by
  simp [placeholder, strData_append]

theorem mk_data (s : String) : String.mk s.data = s := by
  cases s
  rfl

/-- Claim C4. The environment substitution walk: non-string scalars pass
through unmodified; maps and lists are transformed entrywise at arbitrary
nesting depth (keys kept); every string scalar goes through `pattern.sub`;
a dollar-free string is left unchanged; and for any occurrence of
`${name}` (a nonempty word-character name) preceded by dollar-free text,
the occurrence is replaced by the variable's value when it is set and left
literally in place when it is unset, with substitution continuing in the
remainder of the string. -/
theorem c4_env_substitution (env : String → Option String) :
    (∀ n, substYaml env (.int n) = .int n) ∧
    (∀ b, substYaml env (.bool b) = .bool b) ∧
    (substYaml env .null = .null) ∧
    (∀ kvs, substYaml env (.map kvs) =
      .map (kvs.map fun p => (p.1, substYaml env p.2))) ∧
    (∀ xs, substYaml env (.list xs) = .list (xs.map (substYaml env))) ∧
    (∀ s, substYaml env (.str s) = .str (substString env s)) ∧
    (∀ s : String, (∀ c ∈ s.data, c ≠ '$') → substString env s = s) ∧
    (∀ (a name b v : String), (∀ c ∈ a.data, c ≠ '$') → name ≠ "" →
      (∀ c ∈ name.data, isWordChar c = true) → env name = some v →
      substString env (a ++ placeholder name ++ b) =
        a ++ v ++ substString env b) ∧
    (∀ (a name b : String), (∀ c ∈ a.data, c ≠ '$') → name ≠ "" →
      (∀ c ∈ name.data, isWordChar c = true) → env name = none →
      substString env (a ++ placeholder name ++ b) =
        a ++ placeholder name ++ substString env b) := by
  have hdata : ∀ (a name b : String),
      (a ++ placeholder name ++ b).data =
        a.data ++ '$' :: '\x7b' :: (name.data ++ '\x7d' :: b.data) := by
    intro a name b
    simp [strData_append, placeholder_data, List.append_assoc]
  have hkey : ∀ (a name b : String), name ≠ "" →
      (∀ c ∈ a.data, c ≠ '$') → (∀ c ∈ name.data, isWordChar c = true) →
      substString env (a ++ placeholder name ++ b) =
        String.mk (a.data ++ (applyEnvName env name.data ++
          substCharsF env b.data.length b.data)) := by
    intro a name b hne hd hw
    have hne' : name.data ≠ [] := by
      intro hnil
      exact hne (by rw [← mk_data name, hnil])
    show String.mk (substCharsF env (a ++ placeholder name ++ b).data.length
      (a ++ placeholder name ++ b).data) = _
    rw [hdata a name b]
    rw [substF_placeholder env a.data _ name.data b.data (Nat.le_refl _) hd hne' hw]
  refine ⟨fun n => by simp [substYaml], fun b => by simp [substYaml],
    by simp [substYaml], ?_, ?_, fun s => by simp [substYaml], ?_, ?_, ?_⟩
  · intro kvs
    simp [substYaml, substYamlEntries_eq]
  · intro xs
    simp [substYaml, substYamlItems_eq]
  · intro s hd
    apply strExt
    show substCharsF env s.data.length s.data = s.data
    exact substF_no_dollar env s.data.length s.data (Nat.le_refl _) hd
  · intro a name b v hd hne hw hv
    rw [hkey a name b hne hd hw]
    apply strExt
    show a.data ++ (applyEnvName env name.data ++
      substCharsF env b.data.length b.data) = (a ++ v ++ substString env b).data
    have happ : applyEnvName env name.data = v.data := by
      unfold applyEnvName
      rw [mk_data name, hv]
    rw [happ]
    simp [strData_append, substString, List.append_assoc]
  · intro a name b hd hne hw hv
    rw [hkey a name b hne hd hw]
    apply strExt
    show a.data ++ (applyEnvName env name.data ++
      substCharsF env b.data.length b.data) =
        (a ++ placeholder name ++ substString env b).data
    have happ : applyEnvName env name.data =
        '$' :: '\x7b' :: (name.data ++ [ '\x7d' ]) := by
      unfold applyEnvName
      rw [mk_data name, hv]
    rw [happ]
    simp [strData_append, substString, placeholder_data, List.append_assoc]

theorem c4_env_substitution_witness :
    substString envDemo ("x " ++ placeholder "HOME" ++ " y") =
      "x " ++ "/root" ++ substString envDemo " y" ∧
    substString envDemo ("x " ++ placeholder "NOPE" ++ " y") =
      "x " ++ placeholder "NOPE" ++ substString envDemo " y" :=
  ⟨(c4_env_substitution envDemo).2.2.2.2.2.2.2.1 "x " "HOME" " y" "/root"
      (by decide) (by decide) (by decide) rfl,
    (c4_env_substitution envDemo).2.2.2.2.2.2.2.2 "x " "NOPE" " y"
      (by decide) (by decide) (by decide) rfl⟩
